import Mathlib

/-!
Verification of the parameter-transformation engine of
`uptown_funk_macro/src/signature/inputs.rs` (lunatic).

The file embeds, as executable Lean definitions:
  * the syntactic shape of declared parameter types (the fragment of the
    `syn` type grammar the source inspects),
  * the classifier (`transform_path`, `transform_reference`) and the
    per-parameter generator (`transform`),
  * the runtime semantics of the generated decode prologs over a model of
    guest linear memory (string decode, mutable byte-span decode, and the
    two vectored-span decodes).

Machine integers are modelled as `Nat` bit patterns with explicit `% 2^32`
reduction where the generated Rust code performs 32-bit arithmetic, and the
`as usize` casts are modelled for a 64-bit host (sign extension for `i32`,
zero extension for `u32`), matching the release-profile (wrapping) semantics
of the generated code.
-/

namespace UptownFunk

/-- One segment of a `syn` path: its identifier and whether the segment
carries arguments (generics or lifetimes).  `syn`'s `Path::get_ident`
succeeds only when the path has no leading colon and exactly one segment
without arguments, while `segments.last()` compares identifiers ignoring
arguments. -/
structure PathSeg where
  ident : String
  hasArgs : Bool
deriving DecidableEq

/-- A `syn` path: optional leading double colon and a list of segments. -/
structure SynPath where
  leadingColon : Bool
  segments : List PathSeg
deriving DecidableEq

/-- Model of `syn::Path::get_ident`: the single identifier when the path is
a bare one-segment path without leading colon and without arguments. -/
def SynPath.get_ident (p : SynPath) : Option String :=
  match p.leadingColon, p.segments with
  | false, [seg] => if seg.hasArgs then none else some seg.ident
  | _, _ => none

/-- The fragment of the `syn::Type` grammar that `transform` inspects:
path types, reference types (with mutability), slice types, and the other
shapes (`array`, `tuple`, `bareFn`) that fall into the catch-all arms. -/
inductive Ty where
  | path (p : SynPath)
  | reference (mutability : Bool) (elem : Ty)
  | slice (elem : Ty)
  | array (elem : Ty)
  | tuple
  | bareFn
deriving DecidableEq

/-- The closed enumeration of transformation strategies, with the names of
the source enum `Transformation`. -/
inductive Transformation where
  | None
  | CustomType
  | RefCustomType
  | RefStr
  | RefMutSlice
  | RefSliceIoSlices
  | RefMutSliceIoSlicesMut
  | Unsupported
deriving DecidableEq

/-- Model of `syn::PatIdent`: optional `ref` and `mut` qualifiers and the
bound identifier. -/
structure PatIdent where
  by_ref : Bool
  mutability : Bool
  ident : String
deriving DecidableEq

/-- The patterns `transform` inspects: an identifier pattern, or any other
pattern shape (tuple/struct destructuring, wildcards, ...), which the
source rejects. -/
inductive Pat where
  | ident (pi : PatIdent)
  | otherPat
deriving DecidableEq

/-- Model of `syn::PatType`: a pattern (the argument name position) and the
declared type. -/
structure PatType where
  pat : Pat
  ty : Ty
deriving DecidableEq

/-- Transformation for path types (`i32`, `CustomType`, ...); direct
translation of `transform_path` in the source. -/
def transform_path (path : SynPath) : Transformation :=
  match path.get_ident with
  | some ident =>
    if ident = "i32" ∨ ident = "i64" ∨ ident = "f32" ∨ ident = "f64" then
      Transformation.None
    else
      Transformation.CustomType
  | none => Transformation.Unsupported

/-- Transformation for reference types (`&i32`, `&str`, `&mut [u8]`, ...);
direct translation of `transform_reference` in the source, with the
reference decomposed into its mutability flag and element type. -/
def transform_reference (mutability : Bool) (elem : Ty) : Transformation :=
  if mutability then
    match elem with
    | Ty.slice selem =>
      match selem with
      | Ty.path type_path =>
        match type_path.segments.getLast? with
        | some last_segment =>
          if last_segment.ident = "IoSliceMut" then
            Transformation.RefMutSliceIoSlicesMut
          else if last_segment.ident = "u8" then
            Transformation.RefMutSlice
          else
            Transformation.Unsupported
        | none => Transformation.Unsupported
      | _ => Transformation.Unsupported
    | _ => Transformation.Unsupported
  else
    match elem with
    | Ty.path type_path =>
      match type_path.get_ident with
      | some ident =>
        if ident = "str" then Transformation.RefStr
        else Transformation.RefCustomType
      | none => Transformation.Unsupported
    | Ty.slice selem =>
      match selem with
      | Ty.path type_path =>
        match type_path.segments.getLast? with
        | some last_segment =>
          if last_segment.ident = "IoSlice" then
            Transformation.RefSliceIoSlices
          else
            Transformation.Unsupported
        | none => Transformation.Unsupported
      | _ => Transformation.Unsupported
    | _ => Transformation.Unsupported

/-- Modelled from the spec: the generation-time error channel (`arg_error`
lives outside the given source file).  The spec only requires a
parameter-attributed generation failure, so the model records which piece
of the parameter (the name pattern or the type) the error points at. -/
inductive ArgError where
  | patError (p : Pat)
  | tyError (t : Ty)
deriving DecidableEq

/-- The guest-visible calling argument expression generated for the host
call, abstracted from the emitted token streams: a plain identifier, or the
identifier followed by `.as_slice()` or `.as_mut_slice()`. -/
inductive HostCallArg where
  | plain (name : String)
  | asSlice (name : String)
  | asMutSlice (name : String)
deriving DecidableEq

/-- The per-parameter marshalling block emitted into the decode prolog,
abstracted from the emitted token streams.  `noop` is the empty token
stream emitted for forwarded primitives; the other constructors record
which decode recipe is emitted and with which identifiers. -/
inductive DecodeStep where
  | noop
  | fromI32 (name : String) (ty : Ty)
  | fromI32Borrowed (name : String) (tyWithoutRef : Ty)
  | strDecode (name ptrName lenName : String)
  | mutSliceDecode (name ptrName lenName : String)
  | ioSlicesDecode (name ptrName lenName : String)
  | ioSlicesMutDecode (name ptrName lenName : String)
deriving DecidableEq

/-- The bare `i32` type, as written by the generator for handle and
pointer/length words. -/
def tyI32 : Ty := Ty.path ⟨false, [⟨"i32", false⟩]⟩

/-- The bare `i64` type. -/
def tyI64 : Ty := Ty.path ⟨false, [⟨"i64", false⟩]⟩

/-- The bare `str` type. -/
def tyStr : Ty := Ty.path ⟨false, [⟨"str", false⟩]⟩

/-- The bare `u8` type. -/
def tyU8 : Ty := Ty.path ⟨false, [⟨"u8", false⟩]⟩

/-- Direct translation of `transform` in the source: given one
`pat_type`, produce the guest-side input-argument fragment (a list of
name/type pairs), the decode-prolog block and the host-call argument, or a
generation error.  The `_ptr_` and `_len_` suffixes reproduce
`format_ident!` with the literal format strings of the source. -/
def transform (pat_type : PatType) :
    Except ArgError (List (String × Ty) × DecodeStep × HostCallArg) :=
  match pat_type.pat with
  | Pat.ident pat_ident =>
    if pat_ident.by_ref || pat_ident.mutability then
      Except.error (ArgError.patError pat_type.pat)
    else
      let argument_name := pat_ident.ident
      let pat_type_ty := pat_type.ty
      let argument_transformation : Except ArgError Transformation :=
        match pat_type_ty with
        | Ty.path type_path => Except.ok (transform_path type_path)
        | Ty.reference m e => Except.ok (transform_reference m e)
        | t => Except.error (ArgError.tyError t)
      match argument_transformation with
      | Except.error e => Except.error e
      | Except.ok Transformation.None =>
        Except.ok ([(argument_name, pat_type_ty)], DecodeStep.noop,
          HostCallArg.plain argument_name)
      | Except.ok Transformation.CustomType =>
        Except.ok ([(argument_name, tyI32)],
          DecodeStep.fromI32 argument_name pat_type_ty,
          HostCallArg.plain argument_name)
      | Except.ok Transformation.RefCustomType =>
        match pat_type_ty with
        | Ty.reference _ elem =>
          Except.ok ([(argument_name, tyI32)],
            DecodeStep.fromI32Borrowed argument_name elem,
            HostCallArg.plain argument_name)
        | t => Except.error (ArgError.tyError t)
      | Except.ok Transformation.RefStr =>
        Except.ok ([(argument_name ++ "_ptr_", tyI32),
                    (argument_name ++ "_len_", tyI32)],
          DecodeStep.strDecode argument_name (argument_name ++ "_ptr_")
            (argument_name ++ "_len_"),
          HostCallArg.plain argument_name)
      | Except.ok Transformation.RefMutSlice =>
        Except.ok ([(argument_name ++ "_ptr_", tyI32),
                    (argument_name ++ "_len_", tyI32)],
          DecodeStep.mutSliceDecode argument_name (argument_name ++ "_ptr_")
            (argument_name ++ "_len_"),
          HostCallArg.plain argument_name)
      | Except.ok Transformation.RefSliceIoSlices =>
        Except.ok ([(argument_name ++ "_ptr_", tyI32),
                    (argument_name ++ "_len_", tyI32)],
          DecodeStep.ioSlicesDecode argument_name (argument_name ++ "_ptr_")
            (argument_name ++ "_len_"),
          HostCallArg.asSlice argument_name)
      | Except.ok Transformation.RefMutSliceIoSlicesMut =>
        Except.ok ([(argument_name ++ "_ptr_", tyI32),
                    (argument_name ++ "_len_", tyI32)],
          DecodeStep.ioSlicesMutDecode argument_name (argument_name ++ "_ptr_")
            (argument_name ++ "_len_"),
          HostCallArg.asMutSlice argument_name)
      | Except.ok Transformation.Unsupported =>
        Except.error (ArgError.tyError pat_type.ty)
  | p => Except.error (ArgError.patError p)

/-- The classification a parameter type receives in `transform`: path types
go through `transform_path`, reference types through `transform_reference`,
and every other type shape is rejected with the same type-attributed error
as `Unsupported`, so it is classified `Unsupported` here. -/
def classify (t : Ty) : Transformation :=
  match t with
  | Ty.path type_path => transform_path type_path
  | Ty.reference m e => transform_reference m e
  | _ => Transformation.Unsupported

/-- Whether the argument-name pattern is rejected by `transform` before any
type classification: any non-identifier pattern, and identifier patterns
with a `ref` or `mut` qualifier. -/
def rejectedName (p : Pat) : Bool :=
  match p with
  | Pat.ident pat_ident => pat_ident.by_ref || pat_ident.mutability
  | _ => true

/-- Modelled from the spec: the signature-level driver sits outside the
given source file; the spec states that `transform` is invoked once per
parameter in declaration order and the three artifact lists are
concatenated in parameter order. -/
def transformSignature (params : List PatType) :
    Except ArgError (List (String × Ty) × List DecodeStep × List HostCallArg) :=
  match params with
  | [] => Except.ok ([], [], [])
  | pt :: rest =>
    match transform pt with
    | Except.error e => Except.error e
    | Except.ok (frag, step, arg) =>
      match transformSignature rest with
      | Except.error e => Except.error e
      | Except.ok (frags, steps, args) =>
        Except.ok (frag ++ frags, step :: steps, arg :: args)

/-!
Runtime semantics of the generated decode prologs.

Guest linear memory is modelled by its byte size and a byte-valued content
function (`Modelled from the spec`: the guest memory accessor
`state_wrapper.wasm_memory()` lives outside the given source file; the spec
describes it as a bounds-checked accessor over a linear byte-addressable
memory that returns an absent result on out-of-bounds, which is the
semantics of Rust slice `get`/`get_mut` with a half-open range).  The
`Trap::try_option`/`Trap::try_result` conversions (also outside the source
file) turn an absent result into a trap; a trap is modelled by `none` (or
the `trap` constructor for vectored decodes).
-/

/-- Guest linear memory: a byte size and the byte at each address (only
addresses below `size` are meaningful; `data` is reduced mod 256 where the
bytes are read as integers). -/
structure Memory where
  size : Nat
  data : Nat → Nat

/-- The bytes of the half-open range `[a, b)` of the memory. -/
def Memory.read (m : Memory) (a b : Nat) : List Nat :=
  (List.range (b - a)).map (fun i => m.data (a + i))

/-- Model of Rust `slice.get(a..b)` on the whole linear memory: the view of
`[a, b)` when `a ≤ b ≤ size`, absent otherwise.  `get_mut` has the same
bounds semantics. -/
def Memory.get (m : Memory) (a b : Nat) : Option (List Nat) :=
  if a ≤ b ∧ b ≤ m.size then some (m.read a b) else none

/-- Sign extension of a 32-bit bit pattern to a 64-bit `usize`, the
semantics of Rust `i32 as usize` on a 64-bit host. -/
def i32AsUsize (x : Nat) : Nat :=
  if x % 2 ^ 32 < 2 ^ 31 then x % 2 ^ 32 else 2 ^ 64 - 2 ^ 32 + x % 2 ^ 32

/-- Two's-complement wrapping addition of 32-bit bit patterns: the value of
`x + y` on `i32`/`u32` under the release profile. -/
def i32WrapAdd (x y : Nat) : Nat :=
  (x + y) % 2 ^ 32

/-- The start of the bounds range the generated prolog passes to the memory
accessor: `ptr as usize`. -/
def boundsRangeStart (ptr : Nat) : Nat :=
  i32AsUsize ptr

/-- The end of the bounds range the generated prolog passes to the memory
accessor: `(ptr + len) as usize`, where the addition is performed on the
32-bit values and only the wrapped 32-bit result is cast to `usize`. -/
def boundsRangeEnd (ptr len : Nat) : Nat :=
  i32AsUsize (i32WrapAdd ptr len)

/-- Whether a byte is a UTF-8 continuation byte (`0x80..=0xBF`). -/
def isUtf8Cont (b : Nat) : Bool :=
  0x80 ≤ b && b ≤ 0xBF

/-- Modelled from the spec: `std::str::from_utf8` is outside the given
source file; the spec requires the byte range to be validated as UTF-8.
This is the standard UTF-8 acceptance condition (RFC 3629): 1-4 byte
sequences, continuation bytes in `0x80..=0xBF`, no overlong encodings, no
surrogates, nothing above `U+10FFFF`. -/
def isValidUtf8 : List Nat → Bool
  | [] => true
  | b :: rest =>
    if b ≤ 0x7F then
      isValidUtf8 rest
    else if 0xC2 ≤ b && b ≤ 0xDF then
      match rest with
      | c :: r => isUtf8Cont c && isValidUtf8 r
      | [] => false
    else if b = 0xE0 then
      match rest with
      | c :: d :: r => (0xA0 ≤ c && c ≤ 0xBF) && isUtf8Cont d && isValidUtf8 r
      | _ => false
    else if (0xE1 ≤ b && b ≤ 0xEC) || b = 0xEE || b = 0xEF then
      match rest with
      | c :: d :: r => isUtf8Cont c && isUtf8Cont d && isValidUtf8 r
      | _ => false
    else if b = 0xED then
      match rest with
      | c :: d :: r => (0x80 ≤ c && c ≤ 0x9F) && isUtf8Cont d && isValidUtf8 r
      | _ => false
    else if b = 0xF0 then
      match rest with
      | c :: d :: e :: r =>
        (0x90 ≤ c && c ≤ 0xBF) && isUtf8Cont d && isUtf8Cont e && isValidUtf8 r
      | _ => false
    else if 0xF1 ≤ b && b ≤ 0xF3 then
      match rest with
      | c :: d :: e :: r =>
        isUtf8Cont c && isUtf8Cont d && isUtf8Cont e && isValidUtf8 r
      | _ => false
    else if b = 0xF4 then
      match rest with
      | c :: d :: e :: r =>
        (0x80 ≤ c && c ≤ 0x8F) && isUtf8Cont d && isUtf8Cont e && isValidUtf8 r
      | _ => false
    else
      false

/-- Runtime semantics of the decode prolog generated for `RefStr`
(parameter type `&str`): bounds-check `[ptr as usize, (ptr + len) as usize)`
against guest memory, then validate the view as UTF-8; the resulting string
view is the validated bytes themselves.  `none` is a trap. -/
def strDecodeRun (m : Memory) (ptr len : Nat) : Option (List Nat) :=
  match m.get (boundsRangeStart ptr) (boundsRangeEnd ptr len) with
  | none => none
  | some slice => if isValidUtf8 slice then some slice else none

/-- Runtime semantics of the decode prolog generated for `RefMutSlice`
(parameter type `&mut [u8]`): bounds-check and return the mutable view of
`[ptr as usize, (ptr + len) as usize)`.  `none` is a trap. -/
def mutSliceDecodeRun (m : Memory) (ptr len : Nat) : Option (List Nat) :=
  m.get (boundsRangeStart ptr) (boundsRangeEnd ptr len)

/-- Modelled from the spec: the `uptown_funk::IoVecT` descriptor record is
outside the given source file; the spec fixes its layout as a pointer field
and a length field, both 32-bit words, shared bit-for-bit with the guest
(hence little-endian, 8 bytes per record). -/
structure IoVecT where
  ptr : Nat
  len : Nat
deriving DecidableEq

/-- Byte size of one `IoVecT` descriptor record. -/
def ioVecTSize : Nat := 8

/-- Little-endian 32-bit word at address `a` of the memory. -/
def readU32 (m : Memory) (a : Nat) : Nat :=
  m.data a % 2 ^ 8 + 2 ^ 8 * (m.data (a + 1) % 2 ^ 8) +
    2 ^ 16 * (m.data (a + 2) % 2 ^ 8) + 2 ^ 24 * (m.data (a + 3) % 2 ^ 8)

/-- The descriptor record starting at address `a` of the memory. -/
def readIoVecT (m : Memory) (a : Nat) : IoVecT :=
  ⟨readU32 m a, readU32 m (a + 4)⟩

/-- Per-descriptor decode: `io_vec_t.ptr as usize..(io_vec_t.ptr +
io_vec_t.len) as usize`, where the addition is performed on the 32-bit
fields (wrapping) and the fields zero-extend to `usize`. -/
def decodeIoVec (m : Memory) (v : IoVecT) : Option (List Nat) :=
  m.get (v.ptr % 2 ^ 32) ((v.ptr + v.len) % 2 ^ 32)

/-- Outcome of a vectored-span decode.  `ok` collects the per-descriptor
views in descriptor order; `trap` is a failed bounds check (either level);
`ub` marks a descriptor read that falls outside the linear memory
altogether, which in the generated code is an out-of-allocation read with
no defined result.  (A descriptor read beyond the bounds-checked byte range
but still inside the linear memory is modelled as reading the memory, which
is what the compiled code does.) -/
inductive VecDecodeResult (α : Type) where
  | ok (views : List α)
  | trap
  | ub
deriving DecidableEq

/-- The per-descriptor loop of the generated vectored decode: starting at
byte address `base`, decode `count` consecutive descriptor records,
short-circuiting on the first trap, and collecting the views in order. -/
def decodeRecords (m : Memory) (base : Nat) : Nat → VecDecodeResult (List Nat)
  | 0 => VecDecodeResult.ok []
  | Nat.succ n =>
    if base + ioVecTSize ≤ m.size then
      match decodeIoVec m (readIoVecT m base) with
      | some view =>
        match decodeRecords m (base + ioVecTSize) n with
        | VecDecodeResult.ok rest => VecDecodeResult.ok (view :: rest)
        | r => r
      | none => VecDecodeResult.trap
    else
      VecDecodeResult.ub

/-- Runtime semantics of the decode prolog generated for
`RefSliceIoSlices` (parameter type `&[std::io::IoSlice]`): bounds-check
`[ptr as usize, (ptr + len) as usize)`, transmute the checked byte slice to
a descriptor slice — the transmute keeps the slice length field, so the
descriptor count is the byte length of the checked range — and decode that
many records in order. -/
def ioSlicesDecodeRun (m : Memory) (ptr len : Nat) : VecDecodeResult (List Nat) :=
  match m.get (boundsRangeStart ptr) (boundsRangeEnd ptr len) with
  | none => VecDecodeResult.trap
  | some slice => decodeRecords m (boundsRangeStart ptr) slice.length

/-- Runtime semantics of the decode prolog generated for
`RefMutSliceIoSlicesMut` (parameter type `&mut [IoSliceMut]`): identical
range check, transmute and per-descriptor loop, with `get_mut` in place of
`get` (same bounds semantics) and mutable views. -/
def ioSlicesMutDecodeRun (m : Memory) (ptr len : Nat) : VecDecodeResult (List Nat) :=
  match m.get (boundsRangeStart ptr) (boundsRangeEnd ptr len) with
  | none => VecDecodeResult.trap
  | some slice => decodeRecords m (boundsRangeStart ptr) slice.length

/-!
Helper lemmas about the generated range computation.
-/

/-- For a pointer word below `2 ^ 31` the cast to `usize` is the identity. -/
theorem boundsRangeStart_small (ptr : Nat) (h : ptr < 2 ^ 31) :
    boundsRangeStart ptr = ptr := by
  simp only [boundsRangeStart, i32AsUsize]
  split_ifs <;> omega

/-- When the true sum stays below `2 ^ 31`, the generated range end is the
true sum. -/
theorem boundsRangeEnd_small (ptr len : Nat) (h : ptr + len < 2 ^ 31) :
    boundsRangeEnd ptr len = ptr + len := by
  simp only [boundsRangeEnd, i32AsUsize, i32WrapAdd]
  split_ifs <;> omega

/-- Whenever the unsigned 32-bit sum of the pointer and length words
reaches `2 ^ 31`, the range the generated prolog forms fails the bounds
check of every guest memory smaller than `2 ^ 63` bytes: either the
wrapped/sign-extended end falls below the start, or an end or start beyond
`2 ^ 63` exceeds the memory size. -/
theorem get_range_none_of_ge31 (m : Memory) (ptr len : Nat) (hp : ptr < 2 ^ 32)
    (hl : len < 2 ^ 32) (hs : 2 ^ 31 ≤ ptr + len) (hm : m.size < 2 ^ 63) :
    m.get (boundsRangeStart ptr) (boundsRangeEnd ptr len) = none := by
  simp only [Memory.get, boundsRangeStart, boundsRangeEnd, i32AsUsize, i32WrapAdd]
  split_ifs <;> first | rfl | (exfalso; omega)

/-- The view of `[a, b)` has `b - a` bytes. -/
theorem Memory.read_length (m : Memory) (a b : Nat) :
    (m.read a b).length = b - a := by
  simp [Memory.read]

/-- A successful per-descriptor loop over `n` records collects exactly `n`
views. -/
theorem decodeRecords_ok_length (m : Memory) :
    ∀ (n base : Nat) (views : List (List Nat)),
      decodeRecords m base n = VecDecodeResult.ok views → views.length = n := by
  intro n
  induction n with
  | zero =>
    intro base views h
    simp only [decodeRecords] at h
    cases h
    rfl
  | succ k ih =>
    intro base views h
    simp only [decodeRecords] at h
    split at h
    · cases hd : decodeIoVec m (readIoVecT m base) with
      | none => rw [hd] at h; cases h
      | some view =>
        rw [hd] at h
        cases hr : decodeRecords m (base + ioVecTSize) k with
        | ok rest =>
          rw [hr] at h
          cases h
          simpa using ih (base + ioVecTSize) rest hr
        | trap => rw [hr] at h; cases h
        | ub => rw [hr] at h; cases h
    · cases h

/-- C1 counterexample: the generated range end is not the wider-domain sum
of the two words.  At `ptr = 2 ^ 31 - 1`, `len = 1` — a pair whose sum does
not even overflow the unsigned 32-bit domain — the 32-bit addition inside
`(ptr + len) as usize` wraps to the sign bit and the cast sign-extends it,
so the formed end differs from the widened sum and the string decode traps
on a memory that contains the widened range. -/
theorem c1_counterexample :
    boundsRangeEnd (2 ^ 31 - 1) 1 ≠ i32AsUsize (2 ^ 31 - 1) + i32AsUsize 1 ∧
    i32AsUsize (2 ^ 31 - 1) + i32AsUsize 1 ≤ 2 ^ 31 + 8 ∧
    strDecodeRun ⟨2 ^ 31 + 8, fun _ => 97⟩ (2 ^ 31 - 1) 1 = none :=
  ⟨by decide, by decide, by decide⟩

/-- C1 amended: the bounds range end is computed by 32-bit wrapping
addition and only then cast (with sign extension) to the wider domain;
nevertheless, for every (ptr, len) pair whose unsigned 32-bit sum
overflows, every span/string/vectored decode prolog fails its bounds check
and traps (for any guest memory smaller than `2 ^ 63` bytes), never
producing a wrapped-around view. -/
theorem c1_overflow_traps (m : Memory) (ptr len : Nat) (hp : ptr < 2 ^ 32)
    (hl : len < 2 ^ 32) (hover : 2 ^ 32 ≤ ptr + len) (hm : m.size < 2 ^ 63) :
    strDecodeRun m ptr len = none ∧
    mutSliceDecodeRun m ptr len = none ∧
    ioSlicesDecodeRun m ptr len = VecDecodeResult.trap ∧
    ioSlicesMutDecodeRun m ptr len = VecDecodeResult.trap := by
  have h := get_range_none_of_ge31 m ptr len hp hl (le_trans (by norm_num) hover) hm
  refine ⟨?_, ?_, ?_, ?_⟩ <;>
    simp [strDecodeRun, mutSliceDecodeRun, ioSlicesDecodeRun, ioSlicesMutDecodeRun, h]

/-- C1 witness: a concrete unsigned-overflowing pair traps in all four
span/string/vectored decodes on a concrete 16-byte memory. -/
theorem c1_witness :
    strDecodeRun ⟨16, fun _ => 0⟩ (2 ^ 32 - 1) 2 = none ∧
    mutSliceDecodeRun ⟨16, fun _ => 0⟩ (2 ^ 32 - 1) 2 = none ∧
    ioSlicesDecodeRun ⟨16, fun _ => 0⟩ (2 ^ 32 - 1) 2 = VecDecodeResult.trap ∧
    ioSlicesMutDecodeRun ⟨16, fun _ => 0⟩ (2 ^ 32 - 1) 2 = VecDecodeResult.trap :=
  c1_overflow_traps ⟨16, fun _ => 0⟩ (2 ^ 32 - 1) 2 (by decide) (by decide)
    (by decide) (by decide)

/-- C2 (code bug): a 16-byte guest memory holds exactly two descriptor
records (both `(ptr = 0, len = 0)`, each passing its own bounds check, as
the third conjunct shows by decoding exactly two records).  Calling the
vectored decode with the byte length 16 of the descriptor array, the
generated code reinterprets the checked 16-byte range as 16 records — the
transmute keeps the slice length field — and the loop runs off past the
checked range into out-of-allocation reads instead of yielding the two
views. -/
theorem c2_failing_input :
    ioSlicesDecodeRun ⟨16, fun _ => 0⟩ 0 16 = VecDecodeResult.ub ∧
    ioSlicesMutDecodeRun ⟨16, fun _ => 0⟩ 0 16 = VecDecodeResult.ub ∧
    decodeRecords ⟨16, fun _ => 0⟩ 0 2 = VecDecodeResult.ok [[], []] :=
  ⟨by decide, by decide, by decide⟩

/-- C7 counterexample: an in-bounds (ptr, len) pair pointing at valid
UTF-8 bytes on which the string decode nevertheless traps: on a guest
memory of `2 ^ 31 + 8` bytes filled with the letter a, the pair
`(2 ^ 31, 4)` is in bounds and its four bytes are valid UTF-8, but
`ptr as usize` sign-extends the 32-bit pattern `2 ^ 31` to a huge start, so
the bounds check fails and the decode returns a trap instead of the
string view. -/
theorem c7_counterexample :
    2 ^ 31 + 4 ≤ 2 ^ 31 + 8 ∧
    isValidUtf8 (Memory.read ⟨2 ^ 31 + 8, fun _ => 97⟩ (2 ^ 31) (2 ^ 31 + 4)) = true ∧
    strDecodeRun ⟨2 ^ 31 + 8, fun _ => 97⟩ (2 ^ 31) 4 = none :=
  ⟨by decide, by decide, by decide⟩

/-- C7 amended: the string decode bounds-checks first and validates UTF-8
second.  For every (ptr, len) pair whose sum stays below `2 ^ 31`: if the
range is in bounds, the decode returns exactly the bytes of that range when
they are valid UTF-8 and traps when they are not; if the range exceeds
memory, it traps.  Pairs whose 32-bit sum reaches `2 ^ 31` always trap (on
any memory smaller than `2 ^ 63` bytes) because of the sign-extending
casts, even when the range is within guest memory. -/
theorem c7_strDecode (m : Memory) (ptr len : Nat) :
    (ptr + len < 2 ^ 31 →
      (ptr + len ≤ m.size →
        (isValidUtf8 (m.read ptr (ptr + len)) = true →
          strDecodeRun m ptr len = some (m.read ptr (ptr + len))) ∧
        (isValidUtf8 (m.read ptr (ptr + len)) = false →
          strDecodeRun m ptr len = none)) ∧
      (m.size < ptr + len → strDecodeRun m ptr len = none)) ∧
    (ptr < 2 ^ 32 → len < 2 ^ 32 → 2 ^ 31 ≤ ptr + len → m.size < 2 ^ 63 →
      strDecodeRun m ptr len = none) := by
  constructor
  · intro hsmall
    have hst := boundsRangeStart_small ptr (by omega)
    have hen := boundsRangeEnd_small ptr len hsmall
    constructor
    · intro hsz
      have hget : m.get (boundsRangeStart ptr) (boundsRangeEnd ptr len) =
          some (m.read ptr (ptr + len)) := by
        rw [hst, hen]
        simp [Memory.get, Nat.le_add_right, hsz]
      constructor
      · intro hvalid
        simp [strDecodeRun, hget, hvalid]
      · intro hinvalid
        simp [strDecodeRun, hget, hinvalid]
    · intro hsz
      have hget : m.get (boundsRangeStart ptr) (boundsRangeEnd ptr len) = none := by
        rw [hst, hen]
        simp [Memory.get]
        omega
      simp [strDecodeRun, hget]
  · intro hp hl hs hm
    have h := get_range_none_of_ge31 m ptr len hp hl hs hm
    simp [strDecodeRun, h]

/-- C7 witness: on a concrete three-byte memory holding the letters aaa,
the pair `(0, 3)` decodes to exactly those bytes. -/
theorem c7_witness : strDecodeRun ⟨3, fun _ => 97⟩ 0 3 = some [97, 97, 97] := by
  have h :=
    (((c7_strDecode ⟨3, fun _ => 97⟩ 0 3).1 (by decide)).1 (by decide)).1 (by decide)
  exact h.trans (by decide)

/-- C10: for both vectored-span kinds, a successful decode of the pair
(ptr, len) yields as many views as the checked range has bytes — the
guest-supplied length argument `len` itself — because the transmuted
descriptor slice keeps the byte count as its element count; the loop run
count is `len`, never `len` divided by the descriptor record size. -/
theorem c10_loop_count (m : Memory) (ptr len : Nat) (hsmall : ptr + len < 2 ^ 31)
    (hsz : ptr + len ≤ m.size) (views : List (List Nat)) :
    (ioSlicesDecodeRun m ptr len = VecDecodeResult.ok views → views.length = len) ∧
    (ioSlicesMutDecodeRun m ptr len = VecDecodeResult.ok views → views.length = len) ∧
    (ioSlicesDecodeRun m ptr len = VecDecodeResult.ok views → 0 < len →
      views.length ≠ len / ioVecTSize) := by
  have hst := boundsRangeStart_small ptr (by omega)
  have hen := boundsRangeEnd_small ptr len hsmall
  have hget : m.get ptr (ptr + len) = some (m.read ptr (ptr + len)) := by
    simp [Memory.get, Nat.le_add_right, hsz]
  have hlen : (m.read ptr (ptr + len)).length = len := by
    rw [Memory.read_length]
    omega
  refine ⟨?_, ?_, ?_⟩
  · intro h
    simp only [ioSlicesDecodeRun, hst, hen, hget, hlen] at h
    exact decodeRecords_ok_length m len ptr views h
  · intro h
    simp only [ioSlicesMutDecodeRun, hst, hen, hget, hlen] at h
    exact decodeRecords_ok_length m len ptr views h
  · intro h hpos
    simp only [ioSlicesDecodeRun, hst, hen, hget, hlen] at h
    have hv := decodeRecords_ok_length m len ptr views h
    rw [hv]
    simp only [ioVecTSize]
    omega

/-- C10 witness: on a concrete 16-byte zero memory, decoding with length
argument 2 succeeds with exactly 2 views (each descriptor record is
`(0, 0)`), and 2 is the length argument, not 2 divided by the 8-byte
record size. -/
theorem c10_witness :
    ioSlicesDecodeRun ⟨16, fun _ => 0⟩ 0 2 = VecDecodeResult.ok [[], []] ∧
    ([[], []] : List (List Nat)).length = 2 :=
  ⟨by decide,
    (c10_loop_count ⟨16, fun _ => 0⟩ 0 2 (by decide) (by decide) [[], []]).1 (by decide)⟩

/-- C4: path-type classification.  A bare single-segment identifier equal
to one of i32, i64, f32, f64 classifies as the direct (`None`)
transformation; any other bare single-segment identifier classifies as the
opaque-handle (`CustomType`) transformation; a path that is not a single
bare identifier classifies as `Unsupported`; and every type expression
that is neither a path nor a reference classifies as `Unsupported`. -/
theorem c4_classify :
    (∀ (p : SynPath) (id : String), p.get_ident = some id →
      classify (Ty.path p) =
        (if id = "i32" ∨ id = "i64" ∨ id = "f32" ∨ id = "f64" then
          Transformation.None
         else Transformation.CustomType)) ∧
    (∀ p : SynPath, p.get_ident = none →
      classify (Ty.path p) = Transformation.Unsupported) ∧
    (∀ t : Ty, (∀ p, t ≠ Ty.path p) → (∀ mu e, t ≠ Ty.reference mu e) →
      classify t = Transformation.Unsupported) := by
  refine ⟨?_, ?_, ?_⟩
  · intro p id h
    simp [classify, transform_path, h]
  · intro p h
    simp [classify, transform_path, h]
  · intro t hpath href
    cases t with
    | path p => exact absurd rfl (hpath p)
    | reference mu e => exact absurd rfl (href mu e)
    | slice e => simp [classify]
    | array e => simp [classify]
    | tuple => simp [classify]
    | bareFn => simp [classify]

/-- C4 witness: a primitive identifier, a custom identifier, a
multi-segment path, a generic single-segment path, an array and a tuple,
classified through the theorem at concrete inputs. -/
theorem c4_witness :
    classify (Ty.path ⟨false, [⟨"i64", false⟩]⟩) = Transformation.None ∧
    classify (Ty.path ⟨false, [⟨"MyStruct", false⟩]⟩) = Transformation.CustomType ∧
    classify (Ty.path ⟨false, [⟨"std", false⟩, ⟨"string", false⟩, ⟨"String", false⟩]⟩) =
      Transformation.Unsupported ∧
    classify (Ty.path ⟨false, [⟨"Vec", true⟩]⟩) = Transformation.Unsupported ∧
    classify (Ty.array tyU8) = Transformation.Unsupported ∧
    classify Ty.tuple = Transformation.Unsupported := by
  refine ⟨?_, ?_, ?_, ?_, ?_, ?_⟩
  · exact (c4_classify.1 ⟨false, [⟨"i64", false⟩]⟩ "i64" rfl).trans (by decide)
  · exact (c4_classify.1 ⟨false, [⟨"MyStruct", false⟩]⟩ "MyStruct" rfl).trans (by decide)
  · exact c4_classify.2.1 ⟨false, [⟨"std", false⟩, ⟨"string", false⟩, ⟨"String", false⟩]⟩ rfl
  · exact c4_classify.2.1 ⟨false, [⟨"Vec", true⟩]⟩ rfl
  · exact c4_classify.2.2 (Ty.array tyU8) (fun p => by simp) (fun mu e => by simp)
  · exact c4_classify.2.2 Ty.tuple (fun p => by simp) (fun mu e => by simp)

/-- C5: immutable-reference classification.  A reference to the bare
identifier `str` classifies `RefStr`; a reference to a slice whose element
path ends in the segment `IoSlice` classifies `RefSliceIoSlices`; a
reference to any other bare single-segment identifier classifies
`RefCustomType`; and everything else — a slice element whose path ends in
a different segment, a slice of a non-path element, a reference to a
non-bare-identifier path, and a reference to any other element shape
(including a reference to a reference) — classifies `Unsupported`. -/
theorem c5_transform_reference :
    (transform_reference false tyStr = Transformation.RefStr) ∧
    (∀ (p : SynPath) (seg : PathSeg), p.segments.getLast? = some seg →
      seg.ident = "IoSlice" →
      transform_reference false (Ty.slice (Ty.path p)) =
        Transformation.RefSliceIoSlices) ∧
    (∀ (p : SynPath) (id : String), p.get_ident = some id → id ≠ "str" →
      transform_reference false (Ty.path p) = Transformation.RefCustomType) ∧
    (∀ p : SynPath, p.get_ident = none →
      transform_reference false (Ty.path p) = Transformation.Unsupported) ∧
    (∀ (p : SynPath) (seg : PathSeg), p.segments.getLast? = some seg →
      seg.ident ≠ "IoSlice" →
      transform_reference false (Ty.slice (Ty.path p)) =
        Transformation.Unsupported) ∧
    (∀ e : Ty, (∀ p, e ≠ Ty.path p) →
      transform_reference false (Ty.slice e) = Transformation.Unsupported) ∧
    (∀ e : Ty, (∀ p, e ≠ Ty.path p) → (∀ s, e ≠ Ty.slice s) →
      transform_reference false e = Transformation.Unsupported) := by
  refine ⟨?_, ?_, ?_, ?_, ?_, ?_, ?_⟩
  · rfl
  · intro p seg hlast hio
    simp [transform_reference, hlast, hio]
  · intro p id hid hstr
    simp [transform_reference, hid, hstr]
  · intro p hid
    simp [transform_reference, hid]
  · intro p seg hlast hio
    simp [transform_reference, hlast, hio]
  · intro e hpath
    cases e with
    | path p => exact absurd rfl (hpath p)
    | reference mu el => simp [transform_reference]
    | slice el => simp [transform_reference]
    | array el => simp [transform_reference]
    | tuple => simp [transform_reference]
    | bareFn => simp [transform_reference]
  · intro e hpath hslice
    cases e with
    | path p => exact absurd rfl (hpath p)
    | slice el => exact absurd rfl (hslice el)
    | reference mu el => simp [transform_reference]
    | array el => simp [transform_reference]
    | tuple => simp [transform_reference]
    | bareFn => simp [transform_reference]

/-- C5 witness: concrete immutable references — `&str`, a fully qualified
`&[std::io::IoSlice]`, `&MyStruct`, `&i32`, `&[u8]` (read-only byte slice,
unsupported), and `&&u8` — classified through the theorem. -/
theorem c5_witness :
    transform_reference false tyStr = Transformation.RefStr ∧
    transform_reference false
      (Ty.slice (Ty.path ⟨false, [⟨"std", false⟩, ⟨"io", false⟩, ⟨"IoSlice", true⟩]⟩)) =
      Transformation.RefSliceIoSlices ∧
    transform_reference false (Ty.path ⟨false, [⟨"MyStruct", false⟩]⟩) =
      Transformation.RefCustomType ∧
    transform_reference false tyI32 = Transformation.RefCustomType ∧
    transform_reference false (Ty.slice tyU8) = Transformation.Unsupported ∧
    transform_reference false (Ty.reference false tyU8) = Transformation.Unsupported := by
  refine ⟨c5_transform_reference.1, ?_, ?_, ?_, ?_, ?_⟩
  · exact c5_transform_reference.2.1 ⟨false, [⟨"std", false⟩, ⟨"io", false⟩, ⟨"IoSlice", true⟩]⟩
      ⟨"IoSlice", true⟩ rfl rfl
  · exact c5_transform_reference.2.2.1 ⟨false, [⟨"MyStruct", false⟩]⟩ "MyStruct" rfl (by decide)
  · exact c5_transform_reference.2.2.1 ⟨false, [⟨"i32", false⟩]⟩ "i32" rfl (by decide)
  · exact c5_transform_reference.2.2.2.2.1 ⟨false, [⟨"u8", false⟩]⟩ ⟨"u8", false⟩ rfl (by decide)
  · exact c5_transform_reference.2.2.2.2.2.2 (Ty.reference false tyU8)
      (fun p => by simp) (fun s => by simp)

/-- C6: mutable-reference classification.  A mutable reference to a slice
whose element path ends in the segment `IoSliceMut` classifies
`RefMutSliceIoSlicesMut`; to a slice whose element path ends in the
segment `u8` classifies `RefMutSlice`; and every other mutable reference —
a slice element ending in a different segment, a slice of a non-path
element, and any non-slice element, including bare identifiers such as
`&mut i32` or `&mut str` — classifies `Unsupported`. -/
theorem c6_transform_reference :
    (∀ (p : SynPath) (seg : PathSeg), p.segments.getLast? = some seg →
      seg.ident = "u8" →
      transform_reference true (Ty.slice (Ty.path p)) = Transformation.RefMutSlice) ∧
    (∀ (p : SynPath) (seg : PathSeg), p.segments.getLast? = some seg →
      seg.ident = "IoSliceMut" →
      transform_reference true (Ty.slice (Ty.path p)) =
        Transformation.RefMutSliceIoSlicesMut) ∧
    (∀ (p : SynPath) (seg : PathSeg), p.segments.getLast? = some seg →
      seg.ident ≠ "u8" → seg.ident ≠ "IoSliceMut" →
      transform_reference true (Ty.slice (Ty.path p)) = Transformation.Unsupported) ∧
    (∀ e : Ty, (∀ p, e ≠ Ty.path p) →
      transform_reference true (Ty.slice e) = Transformation.Unsupported) ∧
    (∀ e : Ty, (∀ s, e ≠ Ty.slice s) →
      transform_reference true e = Transformation.Unsupported) := by
  refine ⟨?_, ?_, ?_, ?_, ?_⟩
  · intro p seg hlast hu8
    have hne : seg.ident ≠ "IoSliceMut" := by
      rw [hu8]
      decide
    simp [transform_reference, hlast, hu8, hne]
  · intro p seg hlast hio
    simp [transform_reference, hlast, hio]
  · intro p seg hlast hu8 hio
    simp [transform_reference, hlast, hu8, hio]
  · intro e hpath
    cases e with
    | path p => exact absurd rfl (hpath p)
    | reference mu el => simp [transform_reference]
    | slice el => simp [transform_reference]
    | array el => simp [transform_reference]
    | tuple => simp [transform_reference]
    | bareFn => simp [transform_reference]
  · intro e hslice
    cases e with
    | slice el => exact absurd rfl (hslice el)
    | path p => simp [transform_reference]
    | reference mu el => simp [transform_reference]
    | array el => simp [transform_reference]
    | tuple => simp [transform_reference]
    | bareFn => simp [transform_reference]

/-- C6 witness: concrete mutable references — `&mut [u8]`,
`&mut [IoSliceMut]`, `&mut [MyElem]`, `&mut i32` and `&mut str` —
classified through the theorem. -/
theorem c6_witness :
    transform_reference true (Ty.slice tyU8) = Transformation.RefMutSlice ∧
    transform_reference true (Ty.slice (Ty.path ⟨false, [⟨"IoSliceMut", true⟩]⟩)) =
      Transformation.RefMutSliceIoSlicesMut ∧
    transform_reference true (Ty.slice (Ty.path ⟨false, [⟨"MyElem", false⟩]⟩)) =
      Transformation.Unsupported ∧
    transform_reference true tyI32 = Transformation.Unsupported ∧
    transform_reference true tyStr = Transformation.Unsupported := by
  refine ⟨?_, ?_, ?_, ?_, ?_⟩
  · exact c6_transform_reference.1 ⟨false, [⟨"u8", false⟩]⟩ ⟨"u8", false⟩ rfl rfl
  · exact c6_transform_reference.2.1 ⟨false, [⟨"IoSliceMut", true⟩]⟩ ⟨"IoSliceMut", true⟩ rfl rfl
  · exact c6_transform_reference.2.2.1 ⟨false, [⟨"MyElem", false⟩]⟩ ⟨"MyElem", false⟩ rfl
      (by decide) (by decide)
  · exact c6_transform_reference.2.2.2.2 tyI32 (fun s => by simp [tyI32])
  · exact c6_transform_reference.2.2.2.2 tyStr (fun s => by simp [tyStr])

/-- Only reference types classify as `RefCustomType`, so the
reference-stripping step inside `transform` always finds the reference
wrapper it expects. -/
theorem classify_refCustomType_is_reference (t : Ty)
    (h : classify t = Transformation.RefCustomType) :
    ∃ mu e, t = Ty.reference mu e := by
  cases t with
  | path p =>
    exfalso
    cases hid : p.get_ident with
    | some id =>
      simp only [classify, transform_path, hid] at h
      split_ifs at h
    | none =>
      simp only [classify, transform_path, hid] at h
      exact Transformation.noConfusion h
  | reference mu e => exact ⟨mu, e, rfl⟩
  | slice e => cases h
  | array e => cases h
  | tuple => cases h
  | bareFn => cases h

/-- Characterization of every successful run of `transform`: the name is a
plain identifier without qualifiers, and the three artifacts are exactly
determined by the classification of the declared type, which is one of the
seven supported kinds. -/
theorem transform_ok_cases (pt : PatType) (frag : List (String × Ty))
    (step : DecodeStep) (arg : HostCallArg)
    (h : transform pt = Except.ok (frag, step, arg)) :
    ∃ pid : PatIdent, pt.pat = Pat.ident pid ∧ pid.by_ref = false ∧
      pid.mutability = false ∧
      ((classify pt.ty = Transformation.None ∧ frag = [(pid.ident, pt.ty)] ∧
          step = DecodeStep.noop ∧ arg = HostCallArg.plain pid.ident) ∨
       (classify pt.ty = Transformation.CustomType ∧ frag = [(pid.ident, tyI32)] ∧
          step = DecodeStep.fromI32 pid.ident pt.ty ∧
          arg = HostCallArg.plain pid.ident) ∨
       (∃ mu elem, pt.ty = Ty.reference mu elem ∧
          classify pt.ty = Transformation.RefCustomType ∧
          frag = [(pid.ident, tyI32)] ∧
          step = DecodeStep.fromI32Borrowed pid.ident elem ∧
          arg = HostCallArg.plain pid.ident) ∨
       (classify pt.ty = Transformation.RefStr ∧
          frag = [(pid.ident ++ "_ptr_", tyI32), (pid.ident ++ "_len_", tyI32)] ∧
          step = DecodeStep.strDecode pid.ident (pid.ident ++ "_ptr_")
            (pid.ident ++ "_len_") ∧
          arg = HostCallArg.plain pid.ident) ∨
       (classify pt.ty = Transformation.RefMutSlice ∧
          frag = [(pid.ident ++ "_ptr_", tyI32), (pid.ident ++ "_len_", tyI32)] ∧
          step = DecodeStep.mutSliceDecode pid.ident (pid.ident ++ "_ptr_")
            (pid.ident ++ "_len_") ∧
          arg = HostCallArg.plain pid.ident) ∨
       (classify pt.ty = Transformation.RefSliceIoSlices ∧
          frag = [(pid.ident ++ "_ptr_", tyI32), (pid.ident ++ "_len_", tyI32)] ∧
          step = DecodeStep.ioSlicesDecode pid.ident (pid.ident ++ "_ptr_")
            (pid.ident ++ "_len_") ∧
          arg = HostCallArg.asSlice pid.ident) ∨
       (classify pt.ty = Transformation.RefMutSliceIoSlicesMut ∧
          frag = [(pid.ident ++ "_ptr_", tyI32), (pid.ident ++ "_len_", tyI32)] ∧
          step = DecodeStep.ioSlicesMutDecode pid.ident (pid.ident ++ "_ptr_")
            (pid.ident ++ "_len_") ∧
          arg = HostCallArg.asMutSlice pid.ident)) := by
  obtain ⟨pat, ty⟩ := pt
  cases pat with
  | otherPat => exact absurd h (by simp [transform])
  | ident pid =>
    by_cases hb : (pid.by_ref || pid.mutability) = true
    · exact absurd h (by simp [transform, hb])
    · have hbr : pid.by_ref = false := by
        cases hx : pid.by_ref <;> simp_all
      have hmu : pid.mutability = false := by
        cases hx : pid.mutability <;> simp_all
      refine ⟨pid, rfl, hbr, hmu, ?_⟩
      cases ty with
      | path p =>
        have hcl : classify (Ty.path p) = transform_path p := rfl
        cases hk : transform_path p <;>
          simp only [transform, hbr, hmu, Bool.or_self, Bool.false_eq_true,
            if_false, hk] at h <;>
          rw [hcl, hk] <;>
          [skip; skip; exact absurd h (by simp); skip; skip; skip; skip;
            exact absurd h (by simp)] <;>
          (obtain ⟨h1, h2, h3⟩ := by
            simpa [Prod.mk.injEq] using h.symm) <;>
          simp_all
      | reference mu e =>
        have hcl : classify (Ty.reference mu e) = transform_reference mu e := rfl
        cases hk : transform_reference mu e <;>
          simp only [transform, hbr, hmu, Bool.or_self, Bool.false_eq_true,
            if_false, hk] at h <;>
          rw [hcl, hk] <;>
          [skip; skip; skip; skip; skip; skip; skip;
            exact absurd h (by simp)] <;>
          (obtain ⟨h1, h2, h3⟩ := by
            simpa [Prod.mk.injEq] using h.symm) <;>
          simp_all
      | slice e => exact absurd h (by simp [transform, hbr, hmu])
      | array e => exact absurd h (by simp [transform, hbr, hmu])
      | tuple => exact absurd h (by simp [transform, hbr, hmu])
      | bareFn => exact absurd h (by simp [transform, hbr, hmu])

/-- Characterization of every failing run of `transform`: generation fails
exactly when the name pattern is rejected or the declared type classifies
as `Unsupported`. -/
theorem transform_error_iff (pt : PatType) :
    (∃ e, transform pt = Except.error e) ↔
      (rejectedName pt.pat = true ∨ classify pt.ty = Transformation.Unsupported) := by
  obtain ⟨pat, ty⟩ := pt
  cases pat with
  | otherPat =>
    simp [transform, rejectedName]
  | ident pid =>
    by_cases hb : (pid.by_ref || pid.mutability) = true
    · simp [transform, rejectedName, hb]
    · have hbr : pid.by_ref = false := by
        cases hx : pid.by_ref <;> simp_all
      have hmu : pid.mutability = false := by
        cases hx : pid.mutability <;> simp_all
      cases ty with
      | path p =>
        have hcl : classify (Ty.path p) = transform_path p := rfl
        cases hk : transform_path p with
        | RefCustomType =>
          obtain ⟨mu, e, hcontra⟩ :=
            classify_refCustomType_is_reference (Ty.path p) (hcl.trans hk)
          cases hcontra
        | None => simp [transform, rejectedName, hbr, hmu, hk, hcl]
        | CustomType => simp [transform, rejectedName, hbr, hmu, hk, hcl]
        | RefStr => simp [transform, rejectedName, hbr, hmu, hk, hcl]
        | RefMutSlice => simp [transform, rejectedName, hbr, hmu, hk, hcl]
        | RefSliceIoSlices => simp [transform, rejectedName, hbr, hmu, hk, hcl]
        | RefMutSliceIoSlicesMut => simp [transform, rejectedName, hbr, hmu, hk, hcl]
        | Unsupported => simp [transform, rejectedName, hbr, hmu, hk, hcl]
      | reference mu e =>
        have hcl : classify (Ty.reference mu e) = transform_reference mu e := rfl
        cases hk : transform_reference mu e <;>
          simp [transform, rejectedName, hbr, hmu, hk, hcl]
      | slice e => simp [transform, rejectedName, hbr, hmu, classify]
      | array e => simp [transform, rejectedName, hbr, hmu, classify]
      | tuple => simp [transform, rejectedName, hbr, hmu, classify]
      | bareFn => simp [transform, rejectedName, hbr, hmu, classify]

/-- C3 counterexample: for the parameter `x: i64` the kind is `Direct`
(the `None` transformation) but the guest fragment carries the original
64-bit type, not the 32-bit integer type the claim asserts. -/
theorem c3_counterexample :
    transform ⟨Pat.ident ⟨false, false, "x"⟩, tyI64⟩ =
      Except.ok ([("x", tyI64)], DecodeStep.noop, HostCallArg.plain "x") ∧
    classify tyI64 = Transformation.None ∧
    tyI64 ≠ tyI32 :=
  ⟨by rfl, by rfl, by decide⟩

/-- C3 amended: every successful transform contributes a guest fragment of
length 1 or 2, never 0: length 1 for the `Direct`/`OpaqueHandle`/
`BorrowedHandle` kinds — with the original declared type for `Direct` and
the 32-bit integer type for the two handle kinds — and length 2 (a pointer
word and a length word, both 32-bit integers) for the `Utf8String`,
`MutableByteSpan`, `ReadonlyVectoredSpan` and `MutableVectoredSpan`
kinds. -/
theorem c3_fragment_shape (pt : PatType) (frag : List (String × Ty))
    (step : DecodeStep) (arg : HostCallArg)
    (h : transform pt = Except.ok (frag, step, arg)) :
    (1 ≤ frag.length ∧ frag.length ≤ 2) ∧
    (classify pt.ty = Transformation.None → ∃ n, frag = [(n, pt.ty)]) ∧
    ((classify pt.ty = Transformation.CustomType ∨
      classify pt.ty = Transformation.RefCustomType) → ∃ n, frag = [(n, tyI32)]) ∧
    ((classify pt.ty = Transformation.RefStr ∨
      classify pt.ty = Transformation.RefMutSlice ∨
      classify pt.ty = Transformation.RefSliceIoSlices ∨
      classify pt.ty = Transformation.RefMutSliceIoSlicesMut) →
      ∃ n, frag = [(n ++ "_ptr_", tyI32), (n ++ "_len_", tyI32)]) := by
  obtain ⟨pid, hpat, hbr, hmu, hcases⟩ := transform_ok_cases pt frag step arg h
  rcases hcases with ⟨hc, hf, hs, ha⟩ | ⟨hc, hf, hs, ha⟩ |
    ⟨mu, elem, hty, hc, hf, hs, ha⟩ | ⟨hc, hf, hs, ha⟩ | ⟨hc, hf, hs, ha⟩ |
    ⟨hc, hf, hs, ha⟩ | ⟨hc, hf, hs, ha⟩ <;>
    subst hf <;>
    refine ⟨by simp, ?_, ?_, ?_⟩ <;>
    simp [hc] <;>
    exact ⟨pid.ident, by simp⟩

/-- C3 witness: the theorem applied to the concrete parameter `s: &str`,
whose fragment is the pointer/length pair of 32-bit words. -/
theorem c3_witness :
    ∃ n, ([("s_ptr_", tyI32), ("s_len_", tyI32)] : List (String × Ty)) =
      [(n ++ "_ptr_", tyI32), (n ++ "_len_", tyI32)] :=
  (c3_fragment_shape ⟨Pat.ident ⟨false, false, "s"⟩, Ty.reference false tyStr⟩
    [("s_ptr_", tyI32), ("s_len_", tyI32)]
    (DecodeStep.strDecode "s" "s_ptr_" "s_len_") (HostCallArg.plain "s")
    (by rfl)).2.2.2 (Or.inl rfl)

/-- C8: `transform` fails with a parameter-attributed error exactly when
the name pattern is not a plain bindable identifier (a non-identifier
pattern or a `ref`/`mut` qualifier), or the classified kind is
`Unsupported`, or the reference-stripping step cannot find a reference
wrapper on a `BorrowedHandle` type (a disjunct that can in fact never
fire); a rejected name is reported before any type classification, with
the error attributed to the name pattern; every other input yields the
three artifacts. -/
theorem c8_error_conditions (pt : PatType) :
    ((∃ e, transform pt = Except.error e) ↔
      (rejectedName pt.pat = true ∨ classify pt.ty = Transformation.Unsupported ∨
        (classify pt.ty = Transformation.RefCustomType ∧
          ∀ mu e, pt.ty ≠ Ty.reference mu e))) ∧
    (rejectedName pt.pat = true →
      transform pt = Except.error (ArgError.patError pt.pat)) ∧
    ((rejectedName pt.pat = false ∧ classify pt.ty ≠ Transformation.Unsupported) →
      ∃ frag step arg, transform pt = Except.ok (frag, step, arg)) := by
  refine ⟨?_, ?_, ?_⟩
  · constructor
    · intro he
      rcases (transform_error_iff pt).1 he with h | h
      · exact Or.inl h
      · exact Or.inr (Or.inl h)
    · intro hcond
      rcases hcond with h | h | ⟨hc, href⟩
      · exact (transform_error_iff pt).2 (Or.inl h)
      · exact (transform_error_iff pt).2 (Or.inr h)
      · obtain ⟨mu, e, hty⟩ := classify_refCustomType_is_reference pt.ty hc
        exact absurd hty (href mu e)
  · intro hrej
    obtain ⟨pat, ty⟩ := pt
    cases pat with
    | otherPat => simp [transform]
    | ident pid =>
      have hb : (pid.by_ref || pid.mutability) = true := by
        simpa [rejectedName] using hrej
      simp [transform, hb]
  · intro ⟨hname, hcl⟩
    cases hok : transform pt with
    | ok out =>
      obtain ⟨frag, step, arg⟩ := out
      exact ⟨frag, step, arg, rfl⟩
    | error e =>
      exfalso
      rcases (transform_error_iff pt).1 ⟨e, hok⟩ with h | h
      · rw [hname] at h
        cases h
      · exact hcl h

/-- C8 witness: the theorem applied to a parameter whose name carries a
`mut` qualifier and whose type is a tuple: the name check fires first and
the error is attributed to the name pattern. -/
theorem c8_witness :
    transform ⟨Pat.ident ⟨false, true, "x"⟩, Ty.tuple⟩ =
      Except.error (ArgError.patError (Pat.ident ⟨false, true, "x"⟩)) :=
  (c8_error_conditions ⟨Pat.ident ⟨false, true, "x"⟩, Ty.tuple⟩).2.1 (by decide)

/-- C9 counterexample: for the signature `f(a: i32, b: &str, c: &mut
[u8])` the generated guest fragment names carry a trailing underscore
(`b_ptr_`, ...), so the fragment sequence is not the claimed
`[(a, i32), (b_ptr, i32), (b_len, i32), (c_ptr, i32), (c_len, i32)]`. -/
theorem c9_counterexample :
    transformSignature
      [⟨Pat.ident ⟨false, false, "a"⟩, tyI32⟩,
       ⟨Pat.ident ⟨false, false, "b"⟩, Ty.reference false tyStr⟩,
       ⟨Pat.ident ⟨false, false, "c"⟩, Ty.reference true (Ty.slice tyU8)⟩] =
      Except.ok
        ([("a", tyI32), ("b_ptr_", tyI32), ("b_len_", tyI32),
          ("c_ptr_", tyI32), ("c_len_", tyI32)],
         [DecodeStep.noop, DecodeStep.strDecode "b" "b_ptr_" "b_len_",
          DecodeStep.mutSliceDecode "c" "c_ptr_" "c_len_"],
         [HostCallArg.plain "a", HostCallArg.plain "b", HostCallArg.plain "c"]) ∧
    ([("a", tyI32), ("b_ptr_", tyI32), ("b_len_", tyI32),
      ("c_ptr_", tyI32), ("c_len_", tyI32)] : List (String × Ty)) ≠
      [("a", tyI32), ("b_ptr", tyI32), ("b_len", tyI32),
       ("c_ptr", tyI32), ("c_len", tyI32)] :=
  ⟨by rfl, by decide⟩

/-- C9 amended: for the signature `f(a: i32, b: &str, c: &mut [u8])` the
generated guest fragment sequence is exactly `[(a, i32), (b_ptr_, i32),
(b_len_, i32), (c_ptr_, i32), (c_len_, i32)]` — the pointer/length names
carry a trailing underscore — and the decode prolog is the three steps
none (the empty block), string-decode, mutable-span-decode, in that
order. -/
theorem c9_scenario :
    transformSignature
      [⟨Pat.ident ⟨false, false, "a"⟩, tyI32⟩,
       ⟨Pat.ident ⟨false, false, "b"⟩, Ty.reference false tyStr⟩,
       ⟨Pat.ident ⟨false, false, "c"⟩, Ty.reference true (Ty.slice tyU8)⟩] =
      Except.ok
        ([("a", tyI32), ("b_ptr_", tyI32), ("b_len_", tyI32),
          ("c_ptr_", tyI32), ("c_len_", tyI32)],
         [DecodeStep.noop, DecodeStep.strDecode "b" "b_ptr_" "b_len_",
          DecodeStep.mutSliceDecode "c" "c_ptr_" "c_len_"],
         [HostCallArg.plain "a", HostCallArg.plain "b", HostCallArg.plain "c"]) := by
  rfl

end UptownFunk
